import Mathlib

/-!
Verification of the conversation-aware grant retrieval-and-ranking pipeline.

The definitions below are shallow embeddings of the Python source:
 - `backend/eligibility_filter.py` (eligibility pass/fail check and fit score),
 - `src/api/server.py` (`apply_semantic_boost`, `select_top_grants` aggregation),
 - `archive/sqlite_version/scripts/debug/fix_diversity.py` (`add_diversity_to_grants`
   and the open/closed tiering tail of `improved_group_results_by_grant`),
 - `backend/intent_classifier.py` / `backend/enhanced_search.py` (intent overrides),
 - `backend/conversation_manager.py` (`get_last_grants`),
 - `backend/enhanced_search.py` (`_filter_grants_by_name`, follow-up top-up).

Machine floats are modelled as rationals, Python strings as Lean strings with
character-level helper functions (Python `in`, `.lower()`, `.split()`, `.strip()`
are substring search, character lowering, whitespace splitting and trimming).
Fallible calls are modelled with `Except`/`Option`.
-/

/-- Character-list matcher: `matchAt n h` is true iff `n` is a leading prefix of `h`.
Used to embed Python substring search. -/
def matchAt : List Char → List Char → Bool
  | [], _ => true
  | _ :: _, [] => false
  | a :: as, b :: bs => a == b && matchAt as bs

/-- `hasSub n h` is true iff the character list `n` occurs contiguously in `h`. -/
def hasSub : List Char → List Char → Bool
  | n, [] => n.isEmpty
  | n, c :: t => matchAt n (c :: t) || hasSub n t

/-- Python `needle in hay` on strings (substring containment). -/
def sub (needle hay : String) : Bool := hasSub needle.toList hay.toList

/-- Python `s.lower()` (character-wise lowering). -/
def lowerStr (s : String) : String := String.mk (s.toList.map Char.toLower)

/-- Worker for `words`: splits on whitespace runs, dropping empty pieces. -/
def wordsGo : List Char → List Char → List String
  | [], acc => if acc.isEmpty then [] else [String.mk acc.reverse]
  | c :: t, acc =>
    if c.isWhitespace then
      if acc.isEmpty then wordsGo t [] else String.mk acc.reverse :: wordsGo t []
    else wordsGo t (c :: acc)

/-- Python `s.split()` with no argument: whitespace split, empties dropped. -/
def words (s : String) : List String := wordsGo s.toList []

/-- Python `s.strip()`. -/
def stripStr (s : String) : String :=
  String.mk (((s.toList.dropWhile Char.isWhitespace).reverse.dropWhile Char.isWhitespace).reverse)

/-- Python `s.startswith(p)`. -/
def startsW (s p : String) : Bool := matchAt p.toList s.toList

/-- Python `" ".join(l)`. -/
def joinSpace : List String → String
  | [] => ""
  | [s] => s
  | s :: rest => s ++ " " ++ joinSpace rest

/-! ## Eligibility engine (`backend/eligibility_filter.py`) -/

/-- Grant data as consumed by `EligibilityFilter` (`grant_data` dict built in
`filter_grants` / `rank_by_fit`): `budget_max` is `total_fund_gbp` (absent or zero
is Python-falsy), `description` may be `None`, `organization_types` a string list. -/
structure EGrant where
  budget_max : Option ℚ
  description : Option String
  organization_types : List String

/-- The `funding_range` dict: both keys optional; `min` defaults to `0`,
a missing `max` behaves as `float('inf')`. -/
structure FundRange where
  fmin : Option ℚ
  fmax : Option ℚ

/-- User profile as read by the eligibility filter. A missing `organization_type`
or `project_stage` is the empty string (Python `profile.get(key, "")`); an absent
`funding_range` (or the empty dict, which is falsy) is `none`; a falsy
`has_partnerships` is `false`. -/
structure EProfile where
  organization_type : String
  sector : List String
  funding_range : Option FundRange
  has_partnerships : Bool
  project_stage : String

/-- The profile with no recognized keys. -/
def emptyEProfile : EProfile := ⟨"", [], none, false, ""⟩

/-- `full_text = f"{description_lower} {' '.join(org_types_lower)}"` from
`_check_eligibility` (identical value in `_calculate_fit_score`, which lowers
after concatenation - lowering is character-wise, so the two agree). -/
def fullTextOf (g : EGrant) : String :=
  lowerStr (g.description.getD "") ++ " " ++ joinSpace (g.organization_types.map lowerStr)

/-- Stage 1 of `_check_eligibility`: the organization-type hard exclusion. -/
def orgTypeCheck (fullText : String) (orgTypeRaw : String) : Bool :=
  let ot := lowerStr orgTypeRaw
  if ot = "" then true
  else if ot = "sme" then
    !(sub "large companies only" fullText || sub "corporate only" fullText)
  else if ot = "university" then
    !(sub "industry only" fullText || sub "commercial only" fullText)
  else true

/-- `amount <= max_funding` where a missing `max` is `float('inf')`. -/
def leMaxF (amt : ℚ) (fmax : Option ℚ) : Bool :=
  match fmax with
  | some m => decide (amt ≤ m)
  | none => true

/-- `amount < max_funding * 2` where a missing `max` is `float('inf')`. -/
def lt2MaxF (amt : ℚ) (fmax : Option ℚ) : Bool :=
  match fmax with
  | some m => decide (amt < m * 2)
  | none => true

/-- Stage 2 of `_check_eligibility`: funding ceiling with two-fold leniency.
The guard `if funding_range and funding_amount` skips the check when the profile
declares no range or the grant amount is absent or zero (Python falsiness). -/
def fundingCheck (budget : Option ℚ) (fr : Option FundRange) : Bool :=
  match fr, budget with
  | some r, some amt =>
    if amt == 0 then true
    else match r.fmax with
      | some m => !(decide (amt > m * 2))
      | none => true
  | _, _ => true

/-- Stage 4 of `_check_eligibility`: project-stage exclusion for early-stage
profiles (the sector stage 3 is commented out in the source). -/
def stageCheck (fullText : String) (stageRaw : String) : Bool :=
  let st := lowerStr stageRaw
  if st = "early" then
    if sub "commercial readiness" fullText || sub "market launch" fullText then
      sub "early stage" fullText || sub "proof of concept" fullText
    else true
  else true

/-- `EligibilityFilter._check_eligibility`: pass/fail filter. The Python early
returns compose as a conjunction of the three active stages. -/
def check_eligibility (g : EGrant) (p : EProfile) : Bool :=
  let full := fullTextOf g
  orgTypeCheck full p.organization_type &&
  fundingCheck g.budget_max p.funding_range &&
  stageCheck full p.project_stage

/-- The funding-range block of `_calculate_fit_score`: inside the declared range
adds +0.2 to the running score, else within twice the declared maximum adds +0.1;
the block is skipped entirely (Python falsiness) when the profile has no range or
the grant amount is absent or zero. -/
def fundStepFit (fr : Option FundRange) (b : Option ℚ) (s : ℚ) : ℚ :=
  match fr, b with
  | some r, some amt =>
    if amt == 0 then s
    else if decide (r.fmin.getD 0 ≤ amt) && leMaxF amt r.fmax then s + 2/10
    else if lt2MaxF amt r.fmax then s + 1/10
    else s
  | _, _ => s

/-- `EligibilityFilter._calculate_fit_score`: accumulating fit score, clamped. -/
def calculate_fit_score (g : EGrant) (p : EProfile) : ℚ :=
  let full := fullTextOf g
  let s : ℚ := 1/2
  let s := if (!p.sector.isEmpty) && p.sector.any (fun t => sub (lowerStr t) full)
           then s + 3/10 else s
  let ot := lowerStr p.organization_type
  let s := if (!(ot == "")) && sub ot full then s + 2/10 else s
  let s := fundStepFit p.funding_range g.budget_max s
  let s := if p.has_partnerships && sub "partnership" full then s + 1/10 else s
  min s 1

/-- The funding increment by itself, as the specification words it. -/
def fundIncr (fr : Option FundRange) (b : Option ℚ) : ℚ :=
  match fr, b with
  | some r, some amt =>
    if amt == 0 then 0
    else if decide (r.fmin.getD 0 ≤ amt) && leMaxF amt r.fmax then 2/10
    else if lt2MaxF amt r.fmax then 1/10
    else 0
  | _, _ => 0

/-- The fit score as the specification words it: the minimum of 1.0 and 0.5 plus
the four bounded increments. -/
def fitSpec (g : EGrant) (p : EProfile) : ℚ :=
  let full := fullTextOf g
  let ot := lowerStr p.organization_type
  min 1 (1/2
    + (if (!p.sector.isEmpty) && p.sector.any (fun t => sub (lowerStr t) full)
       then 3/10 else 0)
    + (if (!(ot == "")) && sub ot full then 2/10 else 0)
    + fundIncr p.funding_range g.budget_max
    + (if p.has_partnerships && sub "partnership" full then 1/10 else 0))

/-! ### Lemmas about the fit score -/

theorem ite_add_shift (c : Prop) [Decidable c] (s x : ℚ) :
    (if c then s + x else s) = s + (if c then x else 0) := by
  split_ifs <;> ring

theorem fundStepFit_eq (fr : Option FundRange) (b : Option ℚ) (s : ℚ) :
    fundStepFit fr b s = s + fundIncr fr b := by
  rcases fr with _ | r <;> rcases b with _ | amt <;>
    simp only [fundStepFit, fundIncr] <;> (try split_ifs) <;> ring

theorem fundIncr_nonneg (fr : Option FundRange) (b : Option ℚ) :
    0 ≤ fundIncr fr b := by
  rcases fr with _ | r <;> rcases b with _ | amt <;>
    simp only [fundIncr] <;> (try split_ifs) <;> norm_num

theorem fit_eq_fitSpec (g : EGrant) (p : EProfile) :
    calculate_fit_score g p = fitSpec g p := by
  simp only [calculate_fit_score, fitSpec, fundStepFit_eq, ite_add_shift]
  rw [min_comm]

theorem fitSpec_bounds (g : EGrant) (p : EProfile) :
    0 ≤ fitSpec g p ∧ fitSpec g p ≤ 1 := by
  simp only [fitSpec]
  refine ⟨le_min (by norm_num) ?_, min_le_left _ _⟩
  refine add_nonneg (add_nonneg (add_nonneg (add_nonneg (by norm_num) ?_) ?_)
    (fundIncr_nonneg _ _)) ?_
  all_goals split_ifs <;> norm_num

/-- Claim C4: for every candidate and profile the fit score lies in [0,1]; it
equals the minimum of 1.0 and 0.5 plus the increments +0.3 for a declared sector
occurring in the grant text, +0.2 for the organization type occurring in the
grant text, +0.2 for a funding amount inside the declared range (else +0.1 when
within twice the declared maximum), and +0.1 for a declared-partnership match;
and with the empty profile the fit score defaults to 0.5. -/
theorem C4_fit_score_in_unit_interval_and_formula :
    (∀ g p, 0 ≤ calculate_fit_score g p ∧ calculate_fit_score g p ≤ 1) ∧
    (∀ g p, calculate_fit_score g p = fitSpec g p) ∧
    (∀ g, calculate_fit_score g emptyEProfile = 1/2) := by
  refine ⟨fun g p => ?_, fun g p => fit_eq_fitSpec g p, fun g => ?_⟩
  · rw [fit_eq_fitSpec]; exact fitSpec_bounds g p
  · rw [fit_eq_fitSpec]
    rcases g with ⟨b, d, o⟩
    simp only [fitSpec, emptyEProfile]
    rcases b with _ | amt <;> norm_num [fundIncr, lowerStr, min_def]

/-- Claim C5: the eligibility pass/fail check is invariant under arbitrary
changes of the profile's sector field (the sector hard filter is disabled in
the source), while the fit score used for ranking does depend on the sector. -/
theorem C5_sector_is_advisory_only :
    (∀ g p s', check_eligibility g { p with sector := s' } = check_eligibility g p) ∧
    (∃ g p s', calculate_fit_score g { p with sector := s' } ≠ calculate_fit_score g p) := by
  constructor
  · intro g p s'; rfl
  · refine ⟨⟨none, some "digital health projects", []⟩, emptyEProfile, ["health"], ?_⟩
    rw [fit_eq_fitSpec, fit_eq_fitSpec]
    have h1 : ((!(["health"] : List String).isEmpty) &&
        (["health"] : List String).any
          (fun t => sub (lowerStr t) (fullTextOf ⟨none, some "digital health projects", []⟩))) = true := by
      decide
    simp only [fitSpec, emptyEProfile, h1]
    norm_num [fundIncr, lowerStr, min_def]

/-- Claim C10: the organization-type stage excludes exactly an `SME` profile
against "large companies only"/"corporate only" text and a `university` profile
against "industry only"/"commercial only" text; a profile with any other
organization type is never excluded by this stage. -/
theorem C10_org_type_exclusion_characterization :
    (∀ full ot, orgTypeCheck full ot =
      !(((lowerStr ot == "sme") &&
          (sub "large companies only" full || sub "corporate only" full)) ||
        ((lowerStr ot == "university") &&
          (sub "industry only" full || sub "commercial only" full)))) ∧
    (∀ (g : EGrant) (p : EProfile),
      lowerStr p.organization_type ≠ "sme" → lowerStr p.organization_type ≠ "university" →
      orgTypeCheck (fullTextOf g) p.organization_type = true) := by
  constructor
  · intro full ot
    simp only [orgTypeCheck]
    split_ifs with h1 h2 h3
    · simp [h1]
    · simp [h2, beq_eq_false_iff_ne.mpr (h2 ▸ (by decide : ("sme" : String) ≠ "university"))]
    · simp [h3, beq_eq_false_iff_ne.mpr (h3 ▸ (by decide : ("university" : String) ≠ "sme"))]
    · simp [beq_eq_false_iff_ne.mpr h2, beq_eq_false_iff_ne.mpr h3]
  · intro g p h1 h2
    simp only [orgTypeCheck]
    split_ifs <;> rfl

/-- Witness for C10 at a concrete charity profile and a grant whose text contains
every exclusion phrase. -/
theorem C10_witness :
    lowerStr "charity" ≠ "sme" ∧ lowerStr "charity" ≠ "university" ∧
    orgTypeCheck
      (fullTextOf ⟨none, some "industry only, commercial only, large companies only", []⟩)
      "charity" = true :=
  ⟨by decide, by decide,
    C10_org_type_exclusion_characterization.2
      ⟨none, some "industry only, commercial only, large companies only", []⟩
      ⟨"charity", [], none, false, ""⟩ (by decide) (by decide)⟩

/-! ## Greedy diversity selection
(`archive/sqlite_version/scripts/debug/fix_diversity.py`, `add_diversity_to_grants`)
and the tiering tail of `improved_group_results_by_grant`. -/

/-- A grant item as held in the `grant_scores` dicts: id, title, source, the
score used for selection (`boosted_score`/`best_score`), the `is_active` status
and the optional deadline (an abstract instant). -/
structure GItem where
  grant_id : String
  title : String
  source : String
  score : ℚ
  status_open : Bool
  closes_at : Option Int
deriving DecidableEq

/-- Python `set(title.lower().split())`: the distinct lowered words of a title
(only the size of this set and of its intersections is ever used). -/
def titleWordSet (t : String) : List String := (words (lowerStr t)).dedup

/-- The fractional word overlap between a candidate title and a selected title:
`len(cand_words & sel_words) / max(len(cand_words), 1)`. -/
def overlapFrac (cand sel : String) : ℚ :=
  (((titleWordSet cand).filter (fun x => (titleWordSet sel).contains x)).length : ℚ) /
    ((max (titleWordSet cand).length 1 : ℕ) : ℚ)

/-- The accumulated diversity penalty of a candidate against the already-selected
items: `+w*0.5` per same-source selected item, `+w*0.3` per selected item with
title overlap above one half. -/
def penaltyOf (w : ℚ) (selected : List GItem) (cand : GItem) : ℚ :=
  selected.foldl (fun pen s =>
    let pen := if cand.source == s.source then pen + w * (1/2) else pen
    if overlapFrac cand.title s.title > 1/2 then pen + w * (3/10) else pen) 0

/-- `adjusted_score = base_score - penalty`. -/
def adjScore (w : ℚ) (selected : List GItem) (c : GItem) : ℚ :=
  c.score - penaltyOf w selected c

/-- The inner `for i, candidate in enumerate(remaining)` loop: running best
index `bi` and best adjusted score `bs`, updated on strict improvement. -/
def bestIdxGo (w : ℚ) (sel : List GItem) : List GItem → Nat → Nat → ℚ → Nat
  | [], _, bi, _ => bi
  | c :: rest, i, bi, bs =>
    if adjScore w sel c > bs then bestIdxGo w sel rest (i + 1) i (adjScore w sel c)
    else bestIdxGo w sel rest (i + 1) bi bs

/-- `best_idx` as computed by the source: the loop starts from `best_idx = 0`
and the sentinel `best_adjusted_score = -1`. -/
def bestIdx (w : ℚ) (sel rem : List GItem) : Nat := bestIdxGo w sel rem 0 0 (-1)

/-- The `while len(selected) < max_grants and remaining` loop. The fuel argument
is the length of the initial list; every iteration moves exactly one element
from `remaining` to `selected`, so that fuel is never exhausted early. -/
def addDivGo (w : ℚ) (M : Nat) : Nat → List GItem → List GItem → List GItem
  | 0, sel, _ => sel
  | _ + 1, sel, [] => sel
  | fuel + 1, sel, r :: rs =>
    if sel.length < M then
      if sel.isEmpty then addDivGo w M fuel (sel ++ [r]) rs
      else
        let i := bestIdx w sel (r :: rs)
        match (r :: rs)[i]? with
        | some x => addDivGo w M fuel (sel ++ [x]) ((r :: rs).eraseIdx i)
        | none => sel
    else sel

/-- `add_diversity_to_grants(grant_scores, max_grants, diversity_weight)`. -/
def add_diversity_to_grants (gs : List GItem) (M : Nat) (w : ℚ) : List GItem :=
  if gs.isEmpty || M == 0 then [] else addDivGo w M gs.length [] gs

/-- The source defaults: `max_grants = 5`, `diversity_weight = 0.15`. -/
def add_diversity_default (gs : List GItem) : List GItem :=
  add_diversity_to_grants gs 5 (15/100)

/-- Python `list.sort(key=lambda x: x["best_score"], reverse=True)`: stable
descending sort by score. -/
def sortDesc (l : List GItem) : List GItem := l.mergeSort (fun a b => decide (b.score ≤ a.score))

/-- Open/closed classification at instant `now`: with a deadline the item is
open iff the deadline is strictly in the future, otherwise its active status
decides. -/
def isOpenAt (now : Int) (it : GItem) : Bool :=
  match it.closes_at with
  | some d => decide (now < d)
  | none => it.status_open

/-- The selection tail of `improved_group_results_by_grant`: threshold filter,
open/closed partition, per-partition descending sort, greedy diversity selection
over the open partition, and closed items appended only to fill the remaining
slots up to `max_grants`. -/
def improved_group_select (items : List GItem) (thr : ℚ) (M : Nat) (w : ℚ) (now : Int) :
    List GItem :=
  let surviving := items.filter (fun it => !(decide (it.score < thr)))
  let openG := surviving.filter (isOpenAt now)
  let closedG := surviving.filter (fun it => !(isOpenAt now it))
  let closedS := sortDesc closedG
  let divOpen := add_diversity_to_grants (sortDesc openG) M w
  let result := divOpen.take M
  if result.length < M then result ++ closedS.take (M - result.length) else result

/-- Descending order by score (the form in which candidate lists reach the
diversity selector). -/
def sortedDescP (l : List GItem) : Prop := List.Pairwise (fun a b => b.score ≤ a.score) l

/-! ### Structural lemmas for the greedy selection loop -/

theorem cons_eraseIdx_perm {α : Type} :
    ∀ (l : List α) (i : Nat) (x : α), l[i]? = some x → List.Perm (x :: l.eraseIdx i) l
  | a :: t, 0, x, h => by
    simp only [List.getElem?_cons_zero, Option.some.injEq] at h
    subst h
    simp [List.eraseIdx]
  | a :: t, i + 1, x, h => by
    have ih := cons_eraseIdx_perm t i x (by simpa using h)
    have he : (a :: t).eraseIdx (i + 1) = a :: t.eraseIdx i := by simp [List.eraseIdx]
    rw [he]
    exact List.Perm.trans (List.Perm.swap a x _) (ih.cons a)

theorem subperm_nodup {α : Type} {l₁ l₂ : List α} (h : l₁.Subperm l₂) (h₂ : l₂.Nodup) :
    l₁.Nodup := by
  obtain ⟨l, hp, hs⟩ := h
  exact hp.nodup_iff.mp (h₂.sublist hs)

theorem subperm_map {α β : Type} (f : α → β) {l₁ l₂ : List α} (h : l₁.Subperm l₂) :
    (l₁.map f).Subperm (l₂.map f) := by
  obtain ⟨l, hp, hs⟩ := h
  exact ⟨l.map f, hp.map f, hs.map f⟩

theorem subperm_append {α : Type} {a b c d : List α} (h₁ : a.Subperm c) (h₂ : b.Subperm d) :
    (a ++ b).Subperm (c ++ d) := by
  obtain ⟨x, px, sx⟩ := h₁
  obtain ⟨y, py, sy⟩ := h₂
  exact ⟨x ++ y, px.append py, sx.append sy⟩

theorem bestIdxGo_lt (w : ℚ) (sel : List GItem) :
    ∀ (l : List GItem) (i bi n : Nat) (bs : ℚ), bi < n → i + l.length ≤ n →
      bestIdxGo w sel l i bi bs < n := by
  intro l
  induction l with
  | nil => intro i bi n bs h1 _; simpa [bestIdxGo] using h1
  | cons c rest ih =>
    intro i bi n bs h1 h2
    simp only [List.length_cons] at h2
    rw [bestIdxGo]
    split_ifs
    · exact ih (i + 1) i n _ (by omega) (by omega)
    · exact ih (i + 1) bi n bs h1 (by omega)

theorem bestIdx_lt (w : ℚ) (sel : List GItem) (r : GItem) (rs : List GItem) :
    bestIdx w sel (r :: rs) < (r :: rs).length :=
  bestIdxGo_lt w sel (r :: rs) 0 0 _ (-1) (by simp) (by simp)

theorem addDivGo_subperm (w : ℚ) (M : Nat) :
    ∀ (fuel : Nat) (sel rem : List GItem), (addDivGo w M fuel sel rem).Subperm (sel ++ rem) := by
  intro fuel
  induction fuel with
  | zero => intro sel rem; exact (List.sublist_append_left sel rem).subperm
  | succ n ih =>
    intro sel rem
    match rem with
    | [] => exact (List.sublist_append_left sel []).subperm
    | r :: rs =>
      show (addDivGo w M (n + 1) sel (r :: rs)).Subperm _
      rw [addDivGo]
      split_ifs with h1 h2
      · have h := ih (sel ++ [r]) rs
        rw [List.append_assoc] at h
        simpa using h
      · rcases hx : (r :: rs)[bestIdx w sel (r :: rs)]? with _ | x
        · simp only [hx]
          exact (List.sublist_append_left sel _).subperm
        · simp only [hx]
          have hperm : List.Perm (x :: (r :: rs).eraseIdx (bestIdx w sel (r :: rs))) (r :: rs) :=
            cons_eraseIdx_perm _ _ _ hx
          refine (ih (sel ++ [x]) _).trans (List.Perm.subperm ?_)
          rw [List.append_assoc]
          exact List.Perm.append_left sel hperm
      · exact (List.sublist_append_left sel _).subperm

theorem add_diversity_subperm (gs : List GItem) (M : Nat) (w : ℚ) :
    (add_diversity_to_grants gs M w).Subperm gs := by
  rw [add_diversity_to_grants]
  split_ifs with h
  · exact List.nil_subperm
  · simpa using addDivGo_subperm w M gs.length [] gs

theorem addDivGo_length (w : ℚ) (M : Nat) :
    ∀ (fuel : Nat) (sel rem : List GItem), fuel = rem.length → sel.length ≤ M →
      (addDivGo w M fuel sel rem).length = min M (sel.length + rem.length) := by
  intro fuel
  induction fuel with
  | zero =>
    intro sel rem h1 h2
    have : rem = [] := List.length_eq_zero.mp h1.symm
    subst this
    simp only [addDivGo, List.length_nil]
    omega
  | succ n ih =>
    intro sel rem h1 h2
    match rem with
    | [] => simp at h1
    | r :: rs =>
      simp only [List.length_cons] at h1
      rw [addDivGo]
      by_cases hM : sel.length < M
      · rw [if_pos hM]
        by_cases hE : sel.isEmpty
        · rw [if_pos hE]
          have hsel : sel = [] := List.isEmpty_iff.mp hE
          subst hsel
          rw [show ([] : List GItem) ++ [r] = [r] from rfl,
            ih [r] rs (by omega) (by simpa using hM)]
          simp only [List.length_cons, List.length_singleton, List.length_nil]
          omega
        · rw [if_neg hE]
          have hlt := bestIdx_lt w sel r rs
          have hx : (r :: rs)[bestIdx w sel (r :: rs)]? =
              some ((r :: rs).get ⟨bestIdx w sel (r :: rs), hlt⟩) := by
            simp [List.getElem?_eq_getElem hlt]
          simp only [hx]
          rw [ih (sel ++ [_]) _ (by rw [List.length_eraseIdx_of_lt hlt]; simpa using h1)
            (by simpa using hM)]
          rw [List.length_eraseIdx_of_lt hlt]
          simp only [List.length_append, List.length_singleton, List.length_cons,
            List.length_nil]
          omega
      · rw [if_neg hM]
        have : sel.length = M := by omega
        omega

theorem add_diversity_length (gs : List GItem) (M : Nat) (w : ℚ) :
    (add_diversity_to_grants gs M w).length = min M gs.length := by
  rw [add_diversity_to_grants]
  split_ifs with h
  · simp only [Bool.or_eq_true, List.isEmpty_iff, beq_iff_eq] at h
    rcases h with h | h
    · simp [h]
    · simp [h]
  · rw [addDivGo_length w M gs.length [] gs rfl (by simp)]
    simp

/-- Claim C2: for every candidate list with pairwise-distinct grant ids (the shape
the aggregator guarantees), any maximum size M, any diversity weight, any
threshold and any clock instant, the tiering-and-diversity shortlist (greedy
diversity selection over the open partition, closed candidates appended only to
fill remaining slots) has at most M items and never repeats a grant id. -/
theorem C2_shortlist_capped_and_distinct :
    ∀ (items : List GItem) (thr : ℚ) (M : Nat) (w : ℚ) (now : Int),
      (items.map GItem.grant_id).Nodup →
      (improved_group_select items thr M w now).length ≤ M ∧
      ((improved_group_select items thr M w now).map GItem.grant_id).Nodup := by
  intro items thr M w now hnd
  have hsub : (improved_group_select items thr M w now).Subperm items := by
    simp only [improved_group_select]
    set surviving := items.filter (fun it => !(decide (it.score < thr))) with hs
    set openG := surviving.filter (isOpenAt now) with ho
    set closedG := surviving.filter (fun it => !(isOpenAt now it)) with hc
    have hopen : ((add_diversity_to_grants (sortDesc openG) M w).take M).Subperm openG :=
      ((List.take_sublist _ _).subperm.trans
        ((add_diversity_subperm _ _ _).trans (List.mergeSort_perm openG _).subperm))
    have hclosed : ∀ k, ((sortDesc closedG).take k).Subperm closedG := fun k =>
      (List.take_sublist _ _).subperm.trans (List.mergeSort_perm closedG _).subperm
    have hoc : (openG ++ closedG).Subperm items :=
      ((List.filter_append_perm _ surviving).subperm).trans (List.filter_sublist _).subperm
    split_ifs with h
    · exact (subperm_append hopen (hclosed _)).trans hoc
    · exact (hopen.trans (List.sublist_append_left openG closedG).subperm).trans hoc
  constructor
  · simp only [improved_group_select]
    split_ifs with h
    · rw [List.length_append]
      have h1 := List.length_take_le M (add_diversity_to_grants
        (sortDesc ((items.filter (fun it => !(decide (it.score < thr)))).filter (isOpenAt now)))
        M w)
      have h2 := List.length_take_le (M - ((add_diversity_to_grants
        (sortDesc ((items.filter (fun it => !(decide (it.score < thr)))).filter (isOpenAt now)))
        M w).take M).length)
        (sortDesc ((items.filter (fun it => !(decide (it.score < thr)))).filter
          (fun it => !(isOpenAt now it))))
      omega
    · exact List.length_take_le _ _
  · exact subperm_nodup (subperm_map _ hsub) hnd

/-- A concrete two-candidate input for the C2 witness. -/
def exC2 : List GItem :=
  [⟨"a", "alpha", "s1", 1, true, none⟩, ⟨"b", "beta", "s2", 1, true, none⟩]

/-- Witness for C2: the hypothesis (distinct ids) holds of `exC2` and the
conclusion follows at M = 1. -/
theorem C2_witness :
    (exC2.map GItem.grant_id).Nodup ∧
    (improved_group_select exC2 0 1 0 0).length ≤ 1 ∧
    ((improved_group_select exC2 0 1 0 0).map GItem.grant_id).Nodup := by
  have h : (exC2.map GItem.grant_id).Nodup := by decide
  exact ⟨h, C2_shortlist_capped_and_distinct exC2 0 1 0 0 h⟩

theorem addDivGo_append (w : ℚ) (M : Nat) :
    ∀ (fuel : Nat) (sel rem : List GItem), ∃ t, addDivGo w M fuel sel rem = sel ++ t := by
  intro fuel
  induction fuel with
  | zero => intro sel rem; exact ⟨[], by simp [addDivGo]⟩
  | succ n ih =>
    intro sel rem
    match rem with
    | [] => exact ⟨[], by simp [addDivGo]⟩
    | r :: rs =>
      show ∃ t, addDivGo w M (n + 1) sel (r :: rs) = sel ++ t
      rw [addDivGo]
      split_ifs with h1 h2
      · obtain ⟨t, ht⟩ := ih (sel ++ [r]) rs
        exact ⟨r :: t, by rw [ht]; simp⟩
      · rcases hx : (r :: rs)[bestIdx w sel (r :: rs)]? with _ | x
        · simp only [hx]
          exact ⟨[], by simp⟩
        · simp only [hx]
          obtain ⟨t, ht⟩ := ih (sel ++ [x]) ((r :: rs).eraseIdx (bestIdx w sel (r :: rs)))
          exact ⟨x :: t, by rw [ht]; simp⟩
      · exact ⟨[], by simp⟩

/-- Full characterization of the inner best-index loop: if every scanned
adjusted score is at most the running best `bs` the running index `bi` is kept;
if some scanned adjusted score beats `bs` the result is the earliest index of
the maximal adjusted score. -/
theorem bestIdxGo_spec (w : ℚ) (sel : List GItem) :
    ∀ (l : List GItem) (i bi : Nat) (bs : ℚ),
      ((∀ j (hj : j < l.length), adjScore w sel l[j] ≤ bs) →
        bestIdxGo w sel l i bi bs = bi) ∧
      ((∃ j, ∃ hj : j < l.length, bs < adjScore w sel l[j]) →
        ∃ k, ∃ hk : k < l.length, bestIdxGo w sel l i bi bs = i + k ∧
          bs < adjScore w sel l[k] ∧
          (∀ j (hj : j < l.length), adjScore w sel l[j] ≤ adjScore w sel l[k]) ∧
          (∀ j (hj : j < l.length), j < k → adjScore w sel l[j] < adjScore w sel l[k])) := by
  intro l
  induction l with
  | nil =>
    intro i bi bs
    refine ⟨fun _ => rfl, fun h => ?_⟩
    obtain ⟨j, hj, _⟩ := h
    simp at hj
  | cons c rest ih =>
    intro i bi bs
    constructor
    · intro hall
      have hc : ¬ (adjScore w sel c > bs) := by
        have := hall 0 (by simp)
        simpa using this
      rw [bestIdxGo, if_neg hc]
      exact (ih (i + 1) bi bs).1 (fun j hj => by
        have := hall (j + 1) (by simpa : j + 1 < (c :: rest).length)
        simpa using this)
    · intro hex
      rw [bestIdxGo]
      by_cases hc : adjScore w sel c > bs
      · rw [if_pos hc]
        by_cases hrest : ∃ j, ∃ hj : j < rest.length, adjScore w sel c < adjScore w sel rest[j]
        · obtain ⟨k, hk, heq, hgt, hmax, hstrict⟩ := (ih (i + 1) i (adjScore w sel c)).2 hrest
          refine ⟨k + 1, by simpa using Nat.succ_lt_succ hk, by omega, ?_, ?_, ?_⟩
          · simpa using lt_trans hc hgt
          · intro j hj
            match j with
            | 0 => simpa using le_of_lt hgt
            | j' + 1 => simpa using hmax j' (by simpa using hj)
          · intro j hj hjk
            match j with
            | 0 => simpa using hgt
            | j' + 1 => simpa using hstrict j' (by simpa using hj) (by omega)
        · push_neg at hrest
          have hkeep := (ih (i + 1) i (adjScore w sel c)).1 (fun j hj => hrest j hj)
          refine ⟨0, by simp, by simpa using hkeep, by simpa using hc, ?_, ?_⟩
          · intro j hj
            match j with
            | 0 => simp
            | j' + 1 => simpa using hrest j' (by simpa using hj)
          · intro j hj hjk
            omega
      · rw [if_neg hc]
        have hc' : adjScore w sel c ≤ bs := le_of_not_lt hc
        have hex' : ∃ j, ∃ hj : j < rest.length, bs < adjScore w sel rest[j] := by
          obtain ⟨j, hj, hgt⟩ := hex
          match j with
          | 0 => exact absurd (by simpa using hgt) hc
          | j' + 1 => exact ⟨j', by simpa using hj, by simpa using hgt⟩
        obtain ⟨k, hk, heq, hgt, hmax, hstrict⟩ := (ih (i + 1) bi bs).2 hex'
        refine ⟨k + 1, by simpa using Nat.succ_lt_succ hk, by omega, by simpa using hgt, ?_, ?_⟩
        · intro j hj
          match j with
          | 0 => simpa using le_of_lt (lt_of_le_of_lt hc' hgt)
          | j' + 1 => simpa using hmax j' (by simpa using hj)
        · intro j hj hjk
          match j with
          | 0 => simpa using lt_of_le_of_lt hc' hgt
          | j' + 1 => simpa using hstrict j' (by simpa using hj) (by omega)

/-- Maximum adjusted-score value over a list (0 for the empty list, which is
never consulted). Spec-side helper for the claim's selection rule. -/
def listMaxQ (f : GItem → ℚ) : List GItem → ℚ
  | [] => 0
  | [c] => f c
  | c :: rest => max (f c) (listMaxQ f rest)

/-- Earliest index attaining the maximum of `f`: the claim's tie-break rule
("ties broken in favor of the earliest candidate"). -/
def argmaxE (f : GItem → ℚ) : List GItem → Nat
  | [] => 0
  | c :: rest => if listMaxQ f (c :: rest) ≤ f c then 0 else argmaxE f rest + 1

/-- The greedy selection exactly as claim C1 words it: first slot takes the
first (highest-scoring, for a descending-sorted input) candidate; every
subsequent slot takes the remaining candidate with the maximal adjusted score,
earliest first on ties, until M slots are filled or candidates run out. -/
def claimSelectGo (w : ℚ) (M : Nat) : Nat → List GItem → List GItem → List GItem
  | 0, sel, _ => sel
  | _ + 1, sel, [] => sel
  | fuel + 1, sel, r :: rs =>
    if sel.length < M then
      if sel.isEmpty then claimSelectGo w M fuel (sel ++ [r]) rs
      else
        let i := argmaxE (adjScore w sel) (r :: rs)
        match (r :: rs)[i]? with
        | some x => claimSelectGo w M fuel (sel ++ [x]) ((r :: rs).eraseIdx i)
        | none => sel
    else sel

/-- Claim C1's selection procedure, stated from the claim's words. -/
def claimSelect (gs : List GItem) (M : Nat) (w : ℚ) : List GItem :=
  if gs.isEmpty || M == 0 then [] else claimSelectGo w M gs.length [] gs

/-- Claim C1 (amended): greedy diversity selection takes the first (for a
descending-sorted input: a maximal-score) candidate first; at each later slot
the chosen index is the earliest maximizer of adjusted score = combined score
minus the accumulated penalty, provided some remaining candidate has adjusted
score above the loop's −1 sentinel; when every remaining adjusted score is at
most −1 the first remaining candidate is taken regardless of score; selection
runs until M items are chosen or candidates are exhausted, and the default
diversity weight is 0.15. -/
theorem C1_greedy_diversity_selection :
    (∀ (gs : List GItem) (M : Nat) (w : ℚ), sortedDescP gs → 0 < M → ∀ hne : gs ≠ [],
      (add_diversity_to_grants gs M w).head? = gs.head? ∧
      ∀ x ∈ gs, x.score ≤ (gs.head hne).score) ∧
    (∀ (w : ℚ) (sel rem : List GItem),
      (∃ j, ∃ hj : j < rem.length, -1 < adjScore w sel rem[j]) →
      ∃ hk : bestIdx w sel rem < rem.length,
        (∀ j (hj : j < rem.length),
          adjScore w sel rem[j] ≤ adjScore w sel (rem.get ⟨bestIdx w sel rem, hk⟩)) ∧
        (∀ j (hj : j < rem.length), j < bestIdx w sel rem →
          adjScore w sel rem[j] < adjScore w sel (rem.get ⟨bestIdx w sel rem, hk⟩))) ∧
    (∀ (w : ℚ) (sel rem : List GItem),
      (∀ j (hj : j < rem.length), adjScore w sel rem[j] ≤ -1) →
      bestIdx w sel rem = 0) ∧
    (∀ (w : ℚ) (M fuel : Nat) (sel : List GItem) (r : GItem) (rs : List GItem),
      sel.isEmpty = false → sel.length < M →
      addDivGo w M (fuel + 1) sel (r :: rs) =
        addDivGo w M fuel
          (sel ++ [(r :: rs).get ⟨bestIdx w sel (r :: rs), bestIdx_lt w sel r rs⟩])
          ((r :: rs).eraseIdx (bestIdx w sel (r :: rs)))) ∧
    (∀ (gs : List GItem) (M : Nat) (w : ℚ),
      (add_diversity_to_grants gs M w).length = min M gs.length) ∧
    (∀ gs, add_diversity_default gs = add_diversity_to_grants gs 5 (15/100)) := by
  refine ⟨?_, ?_, ?_, ?_, add_diversity_length, fun gs => rfl⟩
  · intro gs M w hsort hM hne
    match gs, hne with
    | g :: t, _ =>
      constructor
      · have hstep : add_diversity_to_grants (g :: t) M w = addDivGo w M t.length [g] t := by
          rw [add_diversity_to_grants, if_neg (by simp; omega)]
          rw [show (g :: t).length = t.length + 1 from rfl, addDivGo,
            if_pos (by simpa using hM), if_pos (by simp)]
          rfl
        obtain ⟨t', ht'⟩ := addDivGo_append w M t.length [g] t
        rw [hstep, ht']
        rfl
      · intro x hx
        rcases List.mem_cons.mp hx with h | h
        · simp [h]
        · exact (List.pairwise_cons.mp hsort).1 x h
  · intro w sel rem hex
    obtain ⟨k, hk, heq, _, hmax, hstrict⟩ := (bestIdxGo_spec w sel rem 0 0 (-1)).2 hex
    have hb : bestIdx w sel rem = k := by simpa [bestIdx] using heq
    rw [hb]
    exact ⟨hk, fun j hj => by simpa using hmax j hj, fun j hj hjk => by simpa using hstrict j hj hjk⟩
  · intro w sel rem hall
    exact (bestIdxGo_spec w sel rem 0 0 (-1)).1 hall
  · intro w M fuel sel r rs hE hM
    rw [addDivGo, if_pos hM, if_neg (by simp [hE])]
    have hx : (r :: rs)[bestIdx w sel (r :: rs)]? =
        some ((r :: rs).get ⟨bestIdx w sel (r :: rs), bestIdx_lt w sel r rs⟩) := by
      simp [List.getElem?_eq_getElem (bestIdx_lt w sel r rs)]
    simp only [hx]

/-! ### Concrete counterexample input for claim C1 -/

/-- Highest-scoring candidate, selected first. -/
def dS1 : GItem := ⟨"g1", "alpha beta", "a", 1, true, none⟩

/-- Second candidate, selected second. -/
def dS2 : GItem := ⟨"g2", "alpha beta", "a", 9/10, true, none⟩

/-- Third-slot candidate at index 0: full penalty against both selected items,
adjusted score −11/10. -/
def dA : GItem := ⟨"gA", "alpha beta", "a", 1/2, true, none⟩

/-- Third-slot candidate at index 1: source penalty only, adjusted score −1,
the maximizer at the third slot. -/
def dB : GItem := ⟨"gB", "gamma delta", "a", 0, true, none⟩

/-- A descending-sorted candidate list on which the source's −1 sentinel
diverges from pure argmax selection at the third slot (diversity weight 1). -/
def exC1 : List GItem := [dS1, dS2, dA, dB]

theorem overlapFrac_eval (c s : String) (a b : ℕ)
    (h1 : ((titleWordSet c).filter (fun x => (titleWordSet s).contains x)).length = a)
    (h2 : max (titleWordSet c).length 1 = b) :
    overlapFrac c s = (a : ℚ) / (b : ℚ) := by
  rw [overlapFrac, h1, h2]

theorem ov_abab : overlapFrac "alpha beta" "alpha beta" = 1 := by
  rw [overlapFrac_eval "alpha beta" "alpha beta" 2 2 (by decide) (by decide)]
  norm_num

theorem ov_gdab : overlapFrac "gamma delta" "alpha beta" = 0 := by
  rw [overlapFrac_eval "gamma delta" "alpha beta" 0 2 (by decide) (by decide)]
  norm_num

theorem pen_S1_S2 : penaltyOf 1 [dS1] dS2 = 4/5 := by
  have hov : overlapFrac dS2.title dS1.title > 1/2 := by
    show overlapFrac "alpha beta" "alpha beta" > 1/2
    rw [ov_abab]; norm_num
  have hsrc : (dS2.source == dS1.source) = true := rfl
  simp only [penaltyOf, List.foldl_cons, List.foldl_nil]
  rw [if_pos hov, if_pos hsrc]
  norm_num

theorem pen_S1_A : penaltyOf 1 [dS1] dA = 4/5 := by
  have hov : overlapFrac dA.title dS1.title > 1/2 := by
    show overlapFrac "alpha beta" "alpha beta" > 1/2
    rw [ov_abab]; norm_num
  have hsrc : (dA.source == dS1.source) = true := rfl
  simp only [penaltyOf, List.foldl_cons, List.foldl_nil]
  rw [if_pos hov, if_pos hsrc]
  norm_num

theorem pen_S1_B : penaltyOf 1 [dS1] dB = 1/2 := by
  have hov : ¬ (overlapFrac dB.title dS1.title > 1/2) := by
    show ¬ (overlapFrac "gamma delta" "alpha beta" > 1/2)
    rw [ov_gdab]; norm_num
  have hsrc : (dB.source == dS1.source) = true := rfl
  simp only [penaltyOf, List.foldl_cons, List.foldl_nil]
  rw [if_neg hov, if_pos hsrc]
  norm_num

theorem pen_S1S2_A : penaltyOf 1 [dS1, dS2] dA = 8/5 := by
  have hov1 : overlapFrac dA.title dS1.title > 1/2 := by
    show overlapFrac "alpha beta" "alpha beta" > 1/2
    rw [ov_abab]; norm_num
  have hov2 : overlapFrac dA.title dS2.title > 1/2 := by
    show overlapFrac "alpha beta" "alpha beta" > 1/2
    rw [ov_abab]; norm_num
  have hsrc1 : (dA.source == dS1.source) = true := rfl
  have hsrc2 : (dA.source == dS2.source) = true := rfl
  simp only [penaltyOf, List.foldl_cons, List.foldl_nil]
  rw [if_pos hov2, if_pos hsrc2, if_pos hov1, if_pos hsrc1]
  norm_num

theorem pen_S1S2_B : penaltyOf 1 [dS1, dS2] dB = 1 := by
  have hov1 : ¬ (overlapFrac dB.title dS1.title > 1/2) := by
    show ¬ (overlapFrac "gamma delta" "alpha beta" > 1/2)
    rw [ov_gdab]; norm_num
  have hov2 : ¬ (overlapFrac dB.title dS2.title > 1/2) := by
    show ¬ (overlapFrac "gamma delta" "alpha beta" > 1/2)
    rw [ov_gdab]; norm_num
  have hsrc1 : (dB.source == dS1.source) = true := rfl
  have hsrc2 : (dB.source == dS2.source) = true := rfl
  simp only [penaltyOf, List.foldl_cons, List.foldl_nil]
  rw [if_neg hov2, if_pos hsrc2, if_neg hov1, if_pos hsrc1]
  norm_num

theorem adj_S1_S2 : adjScore 1 [dS1] dS2 = 1/10 := by
  rw [adjScore, pen_S1_S2]
  show (9 : ℚ)/10 - 4/5 = 1/10
  norm_num

theorem adj_S1_A : adjScore 1 [dS1] dA = -(3/10) := by
  rw [adjScore, pen_S1_A]
  show (1 : ℚ)/2 - 4/5 = -(3/10)
  norm_num

theorem adj_S1_B : adjScore 1 [dS1] dB = -(1/2) := by
  rw [adjScore, pen_S1_B]
  show (0 : ℚ) - 1/2 = -(1/2)
  norm_num

theorem adj_S1S2_A : adjScore 1 [dS1, dS2] dA = -(11/10) := by
  rw [adjScore, pen_S1S2_A]
  show (1 : ℚ)/2 - 8/5 = -(11/10)
  norm_num

theorem adj_S1S2_B : adjScore 1 [dS1, dS2] dB = -1 := by
  rw [adjScore, pen_S1S2_B]
  show (0 : ℚ) - 1 = -1
  norm_num

theorem bidx_slot2 : bestIdx 1 [dS1] [dS2, dA, dB] = 0 := by
  rw [bestIdx, bestIdxGo, if_pos (by rw [adj_S1_S2]; norm_num)]
  rw [bestIdxGo, if_neg (by rw [adj_S1_A, adj_S1_S2]; norm_num)]
  rw [bestIdxGo, if_neg (by rw [adj_S1_B, adj_S1_S2]; norm_num)]
  rw [bestIdxGo]

theorem bidx_slot3 : bestIdx 1 [dS1, dS2] [dA, dB] = 0 := by
  rw [bestIdx, bestIdxGo, if_neg (by rw [adj_S1S2_A]; norm_num)]
  rw [bestIdxGo, if_neg (by rw [adj_S1S2_B]; norm_num)]
  rw [bestIdxGo]

theorem run_code_selection : add_diversity_to_grants exC1 3 1 = [dS1, dS2, dA] := by
  have s1 : addDivGo 1 3 4 [] [dS1, dS2, dA, dB] = addDivGo 1 3 3 [dS1] [dS2, dA, dB] := by
    rw [show (4 : Nat) = 3 + 1 from rfl, addDivGo, if_pos (by decide), if_pos (by decide)]
    rfl
  have s2 : addDivGo 1 3 3 [dS1] [dS2, dA, dB] = addDivGo 1 3 2 [dS1, dS2] [dA, dB] := by
    rw [show (3 : Nat) = 2 + 1 from rfl, addDivGo, if_pos (by decide), if_neg (by decide)]
    simp only [bidx_slot2, List.getElem?_cons_zero, List.eraseIdx_cons_zero]
    rfl
  have s3 : addDivGo 1 3 2 [dS1, dS2] [dA, dB] = addDivGo 1 3 1 [dS1, dS2, dA] [dB] := by
    rw [show (2 : Nat) = 1 + 1 from rfl, addDivGo, if_pos (by decide), if_neg (by decide)]
    simp only [bidx_slot3, List.getElem?_cons_zero, List.eraseIdx_cons_zero]
    rfl
  have s4 : addDivGo 1 3 1 [dS1, dS2, dA] [dB] = [dS1, dS2, dA] := by
    rw [show (1 : Nat) = 0 + 1 from rfl, addDivGo, if_neg (by decide)]
  rw [add_diversity_to_grants, if_neg (by decide), show exC1.length = 4 from rfl,
    show exC1 = [dS1, dS2, dA, dB] from rfl, s1, s2, s3, s4]

theorem lmax_slot2 : listMaxQ (adjScore 1 [dS1]) [dS2, dA, dB] = 1/10 := by
  simp only [listMaxQ]
  rw [adj_S1_S2, adj_S1_A, adj_S1_B]
  rw [max_def, if_neg (by norm_num [max_def])]

theorem lmax_slot3 : listMaxQ (adjScore 1 [dS1, dS2]) [dA, dB] = -1 := by
  simp only [listMaxQ]
  rw [adj_S1S2_A, adj_S1S2_B]
  rw [max_def, if_pos (by norm_num)]

theorem lmax_slot3b : listMaxQ (adjScore 1 [dS1, dS2]) [dB] = -1 := by
  simp only [listMaxQ]
  exact adj_S1S2_B

theorem amax_slot2 : argmaxE (adjScore 1 [dS1]) [dS2, dA, dB] = 0 := by
  rw [argmaxE, if_pos (by rw [lmax_slot2, adj_S1_S2])]

theorem amax_slot3 : argmaxE (adjScore 1 [dS1, dS2]) [dA, dB] = 1 := by
  rw [argmaxE, if_neg (by rw [lmax_slot3, adj_S1S2_A]; norm_num)]
  rw [argmaxE, if_pos (by rw [lmax_slot3b, adj_S1S2_B])]

theorem run_claim_selection : claimSelect exC1 3 1 = [dS1, dS2, dB] := by
  have s1 : claimSelectGo 1 3 4 [] [dS1, dS2, dA, dB] = claimSelectGo 1 3 3 [dS1] [dS2, dA, dB] := by
    rw [show (4 : Nat) = 3 + 1 from rfl, claimSelectGo, if_pos (by decide), if_pos (by decide)]
    rfl
  have s2 : claimSelectGo 1 3 3 [dS1] [dS2, dA, dB] = claimSelectGo 1 3 2 [dS1, dS2] [dA, dB] := by
    rw [show (3 : Nat) = 2 + 1 from rfl, claimSelectGo, if_pos (by decide), if_neg (by decide)]
    simp only [amax_slot2, List.getElem?_cons_zero, List.eraseIdx_cons_zero]
    rfl
  have s3 : claimSelectGo 1 3 2 [dS1, dS2] [dA, dB] = claimSelectGo 1 3 1 [dS1, dS2, dB] [dA] := by
    rw [show (2 : Nat) = 1 + 1 from rfl, claimSelectGo, if_pos (by decide), if_neg (by decide)]
    simp only [amax_slot3, List.getElem?_cons_succ, List.getElem?_cons_zero]
    rfl
  have s4 : claimSelectGo 1 3 1 [dS1, dS2, dB] [dA] = [dS1, dS2, dB] := by
    rw [show (1 : Nat) = 0 + 1 from rfl, claimSelectGo, if_neg (by decide)]
  rw [claimSelect, if_neg (by decide), show exC1.length = 4 from rfl,
    show exC1 = [dS1, dS2, dA, dB] from rfl, s1, s2, s3, s4]

/-- Counterexample for claim C1: on the descending-sorted input `exC1` with
M = 3 and diversity weight 1, the source selects `gA` at the third slot (every
adjusted score is at most the −1 sentinel, so the loop keeps index 0) while the
claim's pure argmax-with-earliest-tie-break rule selects `gB`, whose adjusted
score −1 strictly exceeds `gA`'s −11/10. -/
theorem C1_counterexample :
    sortedDescP exC1 ∧
    (add_diversity_to_grants exC1 3 1).map GItem.grant_id = ["g1", "g2", "gA"] ∧
    (claimSelect exC1 3 1).map GItem.grant_id = ["g1", "g2", "gB"] ∧
    add_diversity_to_grants exC1 3 1 ≠ claimSelect exC1 3 1 := by
  refine ⟨?_, ?_, ?_, ?_⟩
  · rw [sortedDescP]
    norm_num [List.pairwise_cons, exC1, dS1, dS2, dA, dB]
  · rw [run_code_selection]; rfl
  · rw [run_claim_selection]; rfl
  · rw [run_code_selection, run_claim_selection]
    intro hEq
    have h := congrArg (List.map GItem.grant_id) hEq
    simp only [List.map_cons, List.map_nil] at h
    exact absurd h (by decide)

/-- Witness for C1: the first-slot conjunct applied to the singleton list. -/
theorem C1_witness :
    (add_diversity_to_grants [dS1] 1 0).head? = ([dS1] : List GItem).head? ∧
    ∀ x ∈ ([dS1] : List GItem), x.score ≤ (([dS1] : List GItem).head (by simp)).score :=
  C1_greedy_diversity_selection.1 [dS1] 1 0 (by simp [sortedDescP]) (by decide) (by simp)

/-! ## Score adjuster (`src/api/server.py`, `apply_semantic_boost`) -/

/-- `apply_semantic_boost(query, title, base_score)`: the fixed table of
keyword-pair multiplicative boosts (cancer 1.12, therapeutics 1.08,
paediatrics 1.10, AI 1.10). -/
def apply_semantic_boost (query title : String) (base : ℚ) : ℚ :=
  let q := lowerStr query
  let t := lowerStr title
  let s := base
  let s := if (sub "cancer" q || sub "oncolog" q) && (sub "cancer" t || sub "oncolog" t)
           then s * (112/100) else s
  let s := if sub "therap" q && (sub "therap" t || sub "treatment" t)
           then s * (108/100) else s
  let s := if (sub "paediatr" q || sub "pediatr" q) &&
              (sub "paediatr" t || sub "pediatr" t || sub "children" t || sub "child" t)
           then s * (110/100) else s
  let s := if (["ai", "artificial intelligence", "llm", "agentic"].any (fun k => sub k q)) &&
              (["ai", "artificial intelligence", "agentic", "llm"].any (fun k => sub k t))
           then s * (110/100) else s
  s

/-- The total multiplicative factor of the four topic rules. -/
def boostFactor (query title : String) : ℚ :=
  let q := lowerStr query
  let t := lowerStr title
  (if (sub "cancer" q || sub "oncolog" q) && (sub "cancer" t || sub "oncolog" t)
   then (112/100 : ℚ) else 1) *
  (if sub "therap" q && (sub "therap" t || sub "treatment" t) then (108/100 : ℚ) else 1) *
  (if (sub "paediatr" q || sub "pediatr" q) &&
      (sub "paediatr" t || sub "pediatr" t || sub "children" t || sub "child" t)
   then (110/100 : ℚ) else 1) *
  (if (["ai", "artificial intelligence", "llm", "agentic"].any (fun k => sub k q)) &&
      (["ai", "artificial intelligence", "agentic", "llm"].any (fun k => sub k t))
   then (110/100 : ℚ) else 1)

/-- First tied candidate of the C8 scenario, at the boosted score 0.55. -/
def cAI1 : GItem := ⟨"h1", "AI for healthcare solutions", "x", 11/20, true, none⟩

/-- Second tied candidate of the C8 scenario. -/
def cAI2 : GItem := ⟨"h2", "AI tools in healthcare", "y", 11/20, true, none⟩

theorem boost_eval_sol :
    apply_semantic_boost "AI funding for healthcare" "AI for healthcare solutions" (1/2) = 11/20 := by
  have h1 : ((sub "cancer" (lowerStr "AI funding for healthcare") ||
      sub "oncolog" (lowerStr "AI funding for healthcare")) &&
      (sub "cancer" (lowerStr "AI for healthcare solutions") ||
       sub "oncolog" (lowerStr "AI for healthcare solutions"))) = false := by decide
  have h2 : (sub "therap" (lowerStr "AI funding for healthcare") &&
      (sub "therap" (lowerStr "AI for healthcare solutions") ||
       sub "treatment" (lowerStr "AI for healthcare solutions"))) = false := by decide
  have h3 : ((sub "paediatr" (lowerStr "AI funding for healthcare") ||
      sub "pediatr" (lowerStr "AI funding for healthcare")) &&
      (sub "paediatr" (lowerStr "AI for healthcare solutions") ||
       sub "pediatr" (lowerStr "AI for healthcare solutions") ||
       sub "children" (lowerStr "AI for healthcare solutions") ||
       sub "child" (lowerStr "AI for healthcare solutions"))) = false := by decide
  have h4 : ((["ai", "artificial intelligence", "llm", "agentic"].any
        (fun k => sub k (lowerStr "AI funding for healthcare"))) &&
      (["ai", "artificial intelligence", "agentic", "llm"].any
        (fun k => sub k (lowerStr "AI for healthcare solutions")))) = true := by decide
  simp only [apply_semantic_boost, h1, h2, h3, h4, Bool.false_eq_true, if_false, if_true]
  norm_num

theorem boost_eval_tools :
    apply_semantic_boost "AI funding for healthcare" "AI tools in healthcare" (1/2) = 11/20 := by
  have h1 : ((sub "cancer" (lowerStr "AI funding for healthcare") ||
      sub "oncolog" (lowerStr "AI funding for healthcare")) &&
      (sub "cancer" (lowerStr "AI tools in healthcare") ||
       sub "oncolog" (lowerStr "AI tools in healthcare"))) = false := by decide
  have h2 : (sub "therap" (lowerStr "AI funding for healthcare") &&
      (sub "therap" (lowerStr "AI tools in healthcare") ||
       sub "treatment" (lowerStr "AI tools in healthcare"))) = false := by decide
  have h3 : ((sub "paediatr" (lowerStr "AI funding for healthcare") ||
      sub "pediatr" (lowerStr "AI funding for healthcare")) &&
      (sub "paediatr" (lowerStr "AI tools in healthcare") ||
       sub "pediatr" (lowerStr "AI tools in healthcare") ||
       sub "children" (lowerStr "AI tools in healthcare") ||
       sub "child" (lowerStr "AI tools in healthcare"))) = false := by decide
  have h4 : ((["ai", "artificial intelligence", "llm", "agentic"].any
        (fun k => sub k (lowerStr "AI funding for healthcare"))) &&
      (["ai", "artificial intelligence", "agentic", "llm"].any
        (fun k => sub k (lowerStr "AI tools in healthcare")))) = true := by decide
  simp only [apply_semantic_boost, h1, h2, h3, h4, Bool.false_eq_true, if_false, if_true]
  norm_num

/-- Counterexample for claim C8: for the query "AI funding for healthcare" and a
title containing both "AI" and "healthcare", a 0.50 base score is boosted to
0.55 (only the 1.10 AI rule fires; the boost table has no healthcare topic), not
to the claimed 0.605. -/
theorem C8_counterexample :
    apply_semantic_boost "AI funding for healthcare" "AI for healthcare solutions" (1/2) = 11/20 ∧
    (11/20 : ℚ) ≠ 121/200 :=
  ⟨boost_eval_sol, by norm_num⟩

/-- Claim C8 (amended): boosts compound multiplicatively - the adjuster always
returns the base score times the product of the four topic factors; for the
query "AI funding for healthcare" and two candidates whose titles contain the
AI keywords and the word healthcare, each 0.50 base score becomes 0.55 (only
the 1.10 AI boost applies, the table having no healthcare topic), and the
stable descending sort keeps the two tied candidates in their original order. -/
theorem C8_semantic_boost_compounds :
    (∀ q t b, apply_semantic_boost q t b = b * boostFactor q t) ∧
    apply_semantic_boost "AI funding for healthcare" "AI for healthcare solutions" (1/2) = 11/20 ∧
    apply_semantic_boost "AI funding for healthcare" "AI tools in healthcare" (1/2) = 11/20 ∧
    sortDesc [cAI1, cAI2] = [cAI1, cAI2] := by
  refine ⟨?_, boost_eval_sol, boost_eval_tools, ?_⟩
  · intro q t b
    simp only [apply_semantic_boost, boostFactor]
    split_ifs <;> ring
  · rw [sortDesc]
    norm_num [List.mergeSort, List.merge, cAI1, cAI2]

/-! ## Candidate aggregator (`src/api/server.py`, `select_top_grants` grouping) -/

/-- A raw vector-search hit: nullable grant id and relevance score. -/
structure SHit where
  grant_id : Option String
  score : ℚ
deriving DecidableEq

/-- A repository grant record as read by `select_top_grants`. -/
structure SGrant where
  title : String
  source : String
  is_active : Bool
  closes_at : Option Int

/-- First-occurrence deduplication (the insertion order of the Python
`defaultdict` keys), with an explicit seen-accumulator. -/
def dedupFirstGo : List String → List String → List String
  | [], _ => []
  | a :: rest, seen =>
    if seen.contains a then dedupFirstGo rest seen
    else a :: dedupFirstGo rest (a :: seen)

/-- The grant ids of the hits in key order: null ids discarded, one key per
distinct id, first occurrence first. -/
def keysInOrder (hits : List SHit) : List String :=
  dedupFirstGo (hits.filterMap (fun h => h.grant_id)) []

/-- The group of hits for a grant id (`by_grant[gid]`, in hit order). -/
def groupFor (hits : List SHit) (g : String) : List SHit :=
  hits.filter (fun h => h.grant_id == some g)

/-- `max(group, key=lambda x: x.score).score`: the maximum score of a
(nonempty) group. -/
def maxScoreOf : List SHit → ℚ
  | [] => 0
  | h :: t => t.foldl (fun m x => max m x.score) h.score

/-- The aggregation phase of `select_top_grants`: one item per distinct grant
id (in first-occurrence order), ids that the repository cannot resolve dropped
silently, the kept item scored by boosting the group's maximum score. The
repository is a parameter `store`. -/
def aggregateItems (store : String → Option SGrant) (query : String) (hits : List SHit) :
    List GItem :=
  (keysInOrder hits).filterMap (fun g =>
    match store g with
    | none => none
    | some gr => some ⟨g, gr.title, gr.source,
        apply_semantic_boost query gr.title (maxScoreOf (groupFor hits g)),
        gr.is_active, gr.closes_at⟩)

theorem dedupFirstGo_spec :
    ∀ (l seen : List String),
      (dedupFirstGo l seen).Nodup ∧
      ∀ x ∈ dedupFirstGo l seen, x ∈ l ∧ x ∉ seen := by
  intro l
  induction l with
  | nil => intro seen; exact ⟨List.nodup_nil, by simp [dedupFirstGo]⟩
  | cons a rest ih =>
    intro seen
    rw [dedupFirstGo]
    split_ifs with h
    · refine ⟨(ih seen).1, fun x hx => ?_⟩
      obtain ⟨h1, h2⟩ := (ih seen).2 x hx
      exact ⟨List.mem_cons_of_mem a h1, h2⟩
    · have hmem : a ∉ seen := by
        intro hc
        exact h (by simpa using hc)
      constructor
      · refine List.nodup_cons.mpr ⟨fun hc => ?_, (ih (a :: seen)).1⟩
        exact ((ih (a :: seen)).2 a hc).2 (List.mem_cons_self a seen)
      · intro x hx
        rcases List.mem_cons.mp hx with h1 | h1
        · exact ⟨h1 ▸ List.mem_cons_self a rest, h1 ▸ hmem⟩
        · obtain ⟨h2, h3⟩ := (ih (a :: seen)).2 x h1
          exact ⟨List.mem_cons_of_mem a h2, fun hc => h3 (List.mem_cons_of_mem a hc)⟩

theorem aggregate_map_gid (store : String → Option SGrant) (query : String) (hits : List SHit) :
    (aggregateItems store query hits).map GItem.grant_id =
      (keysInOrder hits).filter (fun g => (store g).isSome) := by
  rw [aggregateItems]
  induction keysInOrder hits with
  | nil => rfl
  | cons g rest ih =>
    rw [List.filterMap_cons, List.filter_cons]
    rcases hg : store g with _ | gr
    · simpa [hg] using ih
    · simpa [hg] using ih

theorem maxScoreOf_foldl_init : ∀ (t : List SHit) (m : ℚ),
    m ≤ t.foldl (fun m x => max m x.score) m := by
  intro t
  induction t with
  | nil => intro m; simp
  | cons h rest ih =>
    intro m
    rw [List.foldl_cons]
    exact le_trans (le_max_left m h.score) (ih (max m h.score))

theorem maxScoreOf_foldl_mem : ∀ (t : List SHit) (m : ℚ) (x : SHit), x ∈ t →
    x.score ≤ t.foldl (fun m x => max m x.score) m := by
  intro t
  induction t with
  | nil => intro m x hx; simp at hx
  | cons h rest ih =>
    intro m x hx
    rw [List.foldl_cons]
    rcases List.mem_cons.mp hx with h1 | h1
    · rw [h1]
      exact le_trans (le_max_right m h.score) (maxScoreOf_foldl_init rest _)
    · exact ih _ x h1

theorem maxScoreOf_foldl_attained : ∀ (t : List SHit) (m : ℚ),
    t.foldl (fun m x => max m x.score) m = m ∨
    ∃ x ∈ t, t.foldl (fun m x => max m x.score) m = x.score := by
  intro t
  induction t with
  | nil => intro m; exact Or.inl rfl
  | cons h rest ih =>
    intro m
    rw [List.foldl_cons]
    rcases ih (max m h.score) with h1 | ⟨x, hx, h1⟩
    · rcases max_choice m h.score with h2 | h2
      · exact Or.inl (h1.trans h2)
      · exact Or.inr ⟨h, List.mem_cons_self h rest, h1.trans h2⟩
    · exact Or.inr ⟨x, List.mem_cons_of_mem h hx, h1⟩

theorem maxScoreOf_ge (l : List SHit) (x : SHit) (hx : x ∈ l) : x.score ≤ maxScoreOf l := by
  match l with
  | h :: t =>
    rw [maxScoreOf]
    rcases List.mem_cons.mp hx with h1 | h1
    · exact h1 ▸ maxScoreOf_foldl_init t h.score
    · exact maxScoreOf_foldl_mem t h.score x h1

theorem maxScoreOf_attained (l : List SHit) (hne : l ≠ []) :
    ∃ x ∈ l, x.score = maxScoreOf l := by
  match l with
  | h :: t =>
    rw [maxScoreOf]
    rcases maxScoreOf_foldl_attained t h.score with h1 | ⟨x, hx, h1⟩
    · exact ⟨h, List.mem_cons_self h t, h1.symm⟩
    · exact ⟨x, List.mem_cons_of_mem h hx, h1.symm⟩

/-- Claim C3: the aggregator discards null-id hits, yields at most one candidate
per distinct grant id, and scores each candidate by (the boost of) the maximum
relevance score among that id's contributing hits - a max-reduction. -/
theorem C3_aggregator_max_reduction :
    ∀ (store : String → Option SGrant) (query : String) (hits : List SHit),
      ((aggregateItems store query hits).map GItem.grant_id).Nodup ∧
      ∀ it ∈ aggregateItems store query hits,
        (∃ h ∈ hits, h.grant_id = some it.grant_id) ∧
        it.score = apply_semantic_boost query it.title
          (maxScoreOf (groupFor hits it.grant_id)) ∧
        (∀ h ∈ hits, h.grant_id = some it.grant_id →
          h.score ≤ maxScoreOf (groupFor hits it.grant_id)) ∧
        (∃ h ∈ hits, h.grant_id = some it.grant_id ∧
          h.score = maxScoreOf (groupFor hits it.grant_id)) := by
  intro store query hits
  constructor
  · rw [aggregate_map_gid]
    exact (dedupFirstGo_spec (hits.filterMap (fun h => h.grant_id)) []).1.filter _
  · intro it hit
    rw [aggregateItems] at hit
    obtain ⟨g, hg, hf⟩ := List.mem_filterMap.mp hit
    rcases hs : store g with _ | gr
    · rw [hs] at hf; exact absurd hf (by simp)
    · rw [hs] at hf
      simp only [Option.some.injEq] at hf
      subst hf
      have hex : ∃ h ∈ hits, h.grant_id = some g := by
        have h1 := ((dedupFirstGo_spec (hits.filterMap (fun h => h.grant_id)) []).2 g
          (by simpa [keysInOrder] using hg)).1
        obtain ⟨h, hh, hhg⟩ := List.mem_filterMap.mp h1
        exact ⟨h, hh, hhg⟩
      refine ⟨hex, rfl, fun h hh hhg => ?_, ?_⟩
      · refine maxScoreOf_ge _ h (List.mem_filter.mpr ⟨hh, ?_⟩)
        have hg2 : h.grant_id = some g := hhg
        rw [hg2]
        simp
      · obtain ⟨h, hh, hhg⟩ := hex
        have hne : groupFor hits g ≠ [] := by
          intro hc
          have hmem : h ∈ groupFor hits g := List.mem_filter.mpr ⟨hh, by rw [hhg]; simp⟩
          rw [hc] at hmem
          simp at hmem
        obtain ⟨x, hx, hxs⟩ := maxScoreOf_attained _ hne
        have hxg : x.grant_id = some g := by
          have := (List.mem_filter.mp hx).2
          simpa using this
        exact ⟨x, (List.mem_filter.mp hx).1, hxg, hxs⟩

/-- Concrete repository for the C3 witness: only "g1" resolves. -/
def exStore : String → Option SGrant :=
  fun g => if g = "g1" then some ⟨"T1", "src", true, none⟩ else none

/-- Concrete hits for the C3 witness: two hits for "g1" and one null-id hit. -/
def exHits : List SHit := [⟨some "g1", 1/2⟩, ⟨none, 1⟩, ⟨some "g1", 1/4⟩]

/-- The single candidate the aggregator produces from `exHits`. -/
def exItem : GItem :=
  ⟨"g1", "T1", "src", apply_semantic_boost "q" "T1" (maxScoreOf (groupFor exHits "g1")),
    true, none⟩

/-- Witness for C3 at the concrete store and hits. -/
theorem C3_witness :
    ((aggregateItems exStore "q" exHits).map GItem.grant_id).Nodup ∧
    (∃ h ∈ exHits, h.grant_id = some exItem.grant_id ∧
      h.score = maxScoreOf (groupFor exHits exItem.grant_id)) :=
  ⟨(C3_aggregator_max_reduction exStore "q" exHits).1,
   ((C3_aggregator_max_reduction exStore "q" exHits).2 exItem (by
      rw [show aggregateItems exStore "q" exHits = [exItem] from rfl]
      exact List.mem_singleton.mpr rfl)).2.2.2⟩

/-! ## Grant-name filtering (`backend/enhanced_search.py`, `_filter_grants_by_name`) -/

/-- The body of `_filter_grants_by_name` over an arbitrary title predicate `p`:
all matching grants first (up to the cap), then others only as room remains;
with no match at all, the original list capped at `top_k`. -/
def nameFilterCore (p : GItem → Bool) (k : Nat) (grants : List GItem) : List GItem :=
  let matching := grants.filter p
  let other := grants.filter (fun gr => !(p gr))
  if matching.isEmpty then grants.take k
  else
    let result := matching.take k
    if result.length < k then result ++ other.take (k - result.length) else result

/-- `_filter_grants_by_name(grants, query_name, top_k)`: the predicate is
`query_name in grant.title.lower()`. -/
def filter_grants_by_name (grants : List GItem) (query_name : String) (top_k : Nat) :
    List GItem :=
  nameFilterCore (fun gr => sub query_name (lowerStr gr.title)) top_k grants

theorem nameFilterCore_idem (p : GItem → Bool) (k : Nat) (l : List GItem) :
    nameFilterCore p k (nameFilterCore p k l) = nameFilterCore p k l := by
  by_cases h1 : (l.filter p).isEmpty = true
  · have hinner : nameFilterCore p k l = l.take k := by
      rw [nameFilterCore, if_pos h1]
    rw [hinner]
    have hm : (l.take k).filter p = [] := by
      refine List.filter_eq_nil_iff.mpr (fun x hx => ?_)
      exact List.filter_eq_nil_iff.mp (List.isEmpty_iff.mp h1) x (List.mem_of_mem_take hx)
    rw [nameFilterCore, if_pos (by rw [hm]; rfl), List.take_take, min_self]
  · by_cases h3 : ((l.filter p).take k).length < k
    · have hinner : nameFilterCore p k l =
          (l.filter p).take k ++
          (l.filter (fun gr => !(p gr))).take (k - ((l.filter p).take k).length) := by
        rw [nameFilterCore, if_neg h1, if_pos h3]
      rw [hinner]
      set A := (l.filter p).take k with hA
      set B := (l.filter (fun gr => !(p gr))).take (k - A.length) with hB
      have hfA1 : A.filter p = A := by
        refine List.filter_eq_self.mpr (fun x hx => ?_)
        rw [hA] at hx
        exact (List.mem_filter.mp (List.mem_of_mem_take hx)).2
      have hfA2 : B.filter p = [] := by
        refine List.filter_eq_nil_iff.mpr (fun x hx => ?_)
        rw [hB] at hx
        have hb := (List.mem_filter.mp (List.mem_of_mem_take hx)).2
        simp at hb
        simp [hb]
      have hfB1 : A.filter (fun gr => !(p gr)) = [] := by
        refine List.filter_eq_nil_iff.mpr (fun x hx => ?_)
        rw [hA] at hx
        have hb := (List.mem_filter.mp (List.mem_of_mem_take hx)).2
        simp [hb]
      have hfB2 : B.filter (fun gr => !(p gr)) = B := by
        refine List.filter_eq_self.mpr (fun x hx => ?_)
        rw [hB] at hx
        simpa using (List.mem_filter.mp (List.mem_of_mem_take hx)).2
      have hfA : (A ++ B).filter p = A := by
        rw [List.filter_append, hfA1, hfA2, List.append_nil]
      have hfB : (A ++ B).filter (fun gr => !(p gr)) = B := by
        rw [List.filter_append, hfB1, hfB2, List.nil_append]
      have hAne : ¬ A.isEmpty = true := by
        intro hc
        have hAnil : A = [] := List.isEmpty_iff.mp hc
        have hk : 0 < k := by
          rw [hAnil] at h3
          simpa using h3
        have hlen : A.length = min k (l.filter p).length := by
          rw [hA, List.length_take]
        rw [hAnil] at hlen
        simp only [List.length_nil] at hlen
        have hlen0 : (l.filter p).length = 0 := by omega
        exact h1 (by simp [List.isEmpty_iff, List.length_eq_zero.mp hlen0])
      rw [nameFilterCore, hfA, hfB, if_neg hAne]
      have hAtake : A.take k = A := by rw [hA, List.take_take, min_self]
      rw [hAtake, if_pos (by rw [hA]; exact h3)]
      congr 1
      rw [hB, List.take_take, min_self]
    · have hinner : nameFilterCore p k l = (l.filter p).take k := by
        rw [nameFilterCore, if_neg h1, if_neg h3]
      rw [hinner]
      set A := (l.filter p).take k with hA
      have hfA : A.filter p = A := by
        refine List.filter_eq_self.mpr (fun x hx => ?_)
        rw [hA] at hx
        exact (List.mem_filter.mp (List.mem_of_mem_take hx)).2
      rw [nameFilterCore, hfA]
      by_cases hAe : A.isEmpty = true
      · rw [if_pos hAe, List.isEmpty_iff.mp hAe]
        simp
      · rw [if_neg hAe]
        have hAtake : A.take k = A := by rw [hA, List.take_take, min_self]
        rw [hAtake, if_neg (by rw [hA]; exact h3)]

/-- Claim C9: grant-name filtering is idempotent - applying it to its own output
with the same keyword and the same cap returns that output unchanged. -/
theorem C9_name_filter_idempotent :
    ∀ (grants : List GItem) (query_name : String) (top_k : Nat),
      filter_grants_by_name (filter_grants_by_name grants query_name top_k) query_name top_k =
        filter_grants_by_name grants query_name top_k := by
  intro grants nm k
  simp only [filter_grants_by_name]
  exact nameFilterCore_idem _ k grants

/-! ## Intent routing (`backend/intent_classifier.py` and
`backend/enhanced_search.py` steps 3-3.6) -/

/-- A conversation message: role, content, grants mentioned. -/
structure CMsg where
  role : String
  content : String
  grants_mentioned : List String
deriving DecidableEq

/-- The context handed to the overrides: discussed grants and recent messages. -/
structure Ctx where
  discussed_grants : List String
  recent_messages : List CMsg

/-- An apostrophe character, used inside some follow-up patterns. -/
def apos : String := String.mk [Char.ofNat 39]

/-- The follow-up regex library of `_is_likely_followup`, reduced to substring
tests: every pattern is a literal with an optional trailing question mark
(`\??`, which never affects whether `re.search` finds a match) or an
alternation `(a|b|...)`, expanded here into one entry per alternative. -/
def followupPatterns : List String :=
  ["what are the dates",
   "what are the deadlines",
   "what" ++ apos ++ "s the deadline",
   "when does it close", "when does this close",
   "when do they close", "when do these close", "when do those close",
   "when do these close",
   "when does this close",
   "how much funding",
   "what" ++ apos ++ "s the budget",
   "who can apply",
   "what are the requirements",
   "how do i apply",
   "tell me more",
   "tell me more about",
   "what about",
   "what are the dates for this", "what are the dates for these",
   "what are the dates for that", "what are the dates for those",
   "what" ++ apos ++ "s the funding",
   "how much can i get"]

/-- The question words of the short-question rule. -/
def questionWords : List String := ["what", "when", "how", "who", "which", "where"]

/-- The pronoun indicators of the short-question rule. -/
def pronounIndicators : List String :=
  ["this", "that", "these", "those", "it", "they", "them"]

/-- `EnhancedGrantSearch._is_likely_followup`: pattern-based follow-up
detection, active only when grants have been discussed. -/
def isLikelyFollowup (query : String) (ctx : Ctx) : Bool :=
  if ctx.discussed_grants.isEmpty then false
  else
    let ql := stripStr (lowerStr query)
    if followupPatterns.any (fun pt => sub pt ql) then true
    else
      let wc := (words query).length
      if wc ≤ 10 then
        if (questionWords.any (fun qw => startsW ql qw)) &&
            (pronounIndicators.any (fun pr => (words ql).contains pr)) then
          match ctx.recent_messages.getLast? with
          | some m => m.role == "assistant"
          | none => false
        else false
      else false

/-- Steps 3.5 and 3.6 of `EnhancedGrantSearch.search`: the pattern-based
override, then the terminal "tell me more" override. -/
def applyOverrides (intent : String) (query : String) (ctx : Ctx) : String :=
  let i1 := if intent != "followup" && isLikelyFollowup query ctx then "followup" else intent
  if sub "tell me more" (lowerStr query) && !ctx.discussed_grants.isEmpty &&
      i1 != "followup"
  then "followup" else i1

/-- Step 3 of `EnhancedGrantSearch.search`: `classify` is called with no
exception handling, so a failing classifier call (modelled as `Except.error`)
propagates; only a successful result reaches the override rules. -/
def resolveIntent (primary : Except Unit String) (query : String) (ctx : Ctx) :
    Except Unit String :=
  match primary with
  | Except.error e => Except.error e
  | Except.ok intent => Except.ok (applyOverrides intent query ctx)

/-- Counterexample for claim C6: with the primary classifier unavailable, the
resolved intent is the propagated error, not the claimed default `discovery`. -/
theorem C6_counterexample :
    resolveIntent (Except.error ()) "find ai grants" ⟨[], []⟩ = Except.error () ∧
    resolveIntent (Except.error ()) "find ai grants" ⟨[], []⟩ ≠ Except.ok "discovery" := by
  refine ⟨rfl, ?_⟩
  intro h
  simp [resolveIntent] at h

/-- Claim C6 (amended): when the primary classifier call fails, the failure
propagates out of `search` (there is no `discovery` default); the deterministic
override rules run only on a successfully returned intent; with no discussed
grants the overrides change nothing, and a "tell me more" query with discussed
grants always resolves to `followup`. -/
theorem C6_classifier_failure_propagates :
    (∀ (q : String) (ctx : Ctx), resolveIntent (Except.error ()) q ctx = Except.error ()) ∧
    (∀ (q : String) (ctx : Ctx) (i : String),
      resolveIntent (Except.ok i) q ctx = Except.ok (applyOverrides i q ctx)) ∧
    (∀ (q : String) (ctx : Ctx) (i : String), ctx.discussed_grants = [] →
      applyOverrides i q ctx = i) ∧
    (∀ (q : String) (ctx : Ctx) (i : String),
      sub "tell me more" (lowerStr q) = true → ctx.discussed_grants ≠ [] →
      applyOverrides i q ctx = "followup") := by
  refine ⟨fun q ctx => rfl, fun q ctx i => rfl, ?_, ?_⟩
  · intro q ctx i h
    simp [applyOverrides, isLikelyFollowup, h]
  · intro q ctx i hsub hne
    have hne' : ctx.discussed_grants.isEmpty = false := by
      simpa [List.isEmpty_iff] using hne
    by_cases hi : (if (i != "followup") && isLikelyFollowup q ctx then "followup" else i) =
        "followup"
    · simp only [applyOverrides, hi]
      simp
    · simp only [applyOverrides]
      rw [if_pos]
      rw [hsub, hne']
      simp only [Bool.not_false, Bool.true_and, Bool.and_true]
      exact bne_iff_ne.mpr hi

/-- Witness for C6: a "tell me more" query with one discussed grant forces the
`followup` intent whatever the classifier said. -/
theorem C6_witness :
    sub "tell me more" (lowerStr "tell me more please") = true ∧
    (⟨["g1"], []⟩ : Ctx).discussed_grants ≠ [] ∧
    applyOverrides "discovery" "tell me more please" ⟨["g1"], []⟩ = "followup" :=
  ⟨by decide, by decide,
    C6_classifier_failure_propagates.2.2.2 "tell me more please" ⟨["g1"], []⟩ "discovery"
      (by decide) (by decide)⟩

/-! ## Follow-up candidate sourcing
(`backend/conversation_manager.py`, `get_last_grants`;
`backend/enhanced_search.py`, the followup branch of `search`) -/

/-- The `for msg in reversed(messages)` loop of `get_last_grants`: extend the
accumulator with each message's `grants_mentioned` (newest message first) and
break as soon as `n` entries have accumulated. -/
def getLastGrantsLoop (n : Nat) : List CMsg → List String → List String
  | [], acc => acc
  | m :: ms, acc =>
    if m.grants_mentioned.isEmpty then getLastGrantsLoop n ms acc
    else
      let acc2 := acc ++ m.grants_mentioned
      if n ≤ acc2.length then acc2 else getLastGrantsLoop n ms acc2

/-- `ConversationManager.get_last_grants(session_id, n)` over the session's
message list: the loop above followed by `grants[:n]`. -/
def get_last_grants (messages : List CMsg) (n : Nat) : List String :=
  (getLastGrantsLoop n messages.reverse []).take n

/-- The claim's candidate source: the last `n` DISTINCT grant ids of the
discussed-grants list, most recent first. Stated from the claim's words, to be
compared against `get_last_grants`. -/
def lastDistinctGrants (discussed : List String) (n : Nat) : List String :=
  (dedupFirstGo discussed.reverse []).take n

/-- Lines 267-270 of `EnhancedGrantSearch.search`: when fewer than 3 follow-up
grants were fetched and a vector index is configured, the fresh retrieval
results are appended to (never substituted for) the fetched grants. -/
def followupTopUp (hasIndex : Bool) (fetched additional : List GItem) : List GItem :=
  if fetched.length < 3 && hasIndex then fetched ++ additional else fetched

/-- Messages whose grant mentions repeat across turns. -/
def exMsgs : List CMsg :=
  [⟨"assistant", "", ["A"]⟩, ⟨"assistant", "", ["B"]⟩, ⟨"assistant", "", ["A"]⟩,
   ⟨"assistant", "", ["C"]⟩, ⟨"assistant", "", ["D"]⟩]

/-- Counterexample for claim C7: `get_last_grants` does not deduplicate - on
`exMsgs` it returns ["D","C","A","B","A"], which repeats "A" and differs from
the claimed last-5-distinct list ["D","C","A","B"]. -/
theorem C7_counterexample :
    get_last_grants exMsgs 5 = ["D", "C", "A", "B", "A"] ∧
    lastDistinctGrants (exMsgs.flatMap (fun m => m.grants_mentioned)) 5 = ["D", "C", "A", "B"] ∧
    ¬ (get_last_grants exMsgs 5).Nodup ∧
    get_last_grants exMsgs 5 ≠
      lastDistinctGrants (exMsgs.flatMap (fun m => m.grants_mentioned)) 5 := by
  refine ⟨by decide, by decide, by decide, by decide⟩

theorem getLastGrantsLoop_take (n : Nat) :
    ∀ (ms : List CMsg) (acc : List String),
      (getLastGrantsLoop n ms acc).take n =
        (acc ++ ms.flatMap (fun m => m.grants_mentioned)).take n := by
  intro ms
  induction ms with
  | nil => intro acc; simp [getLastGrantsLoop]
  | cons m ms ih =>
    intro acc
    simp only [getLastGrantsLoop]
    split_ifs with h1 h2
    · rw [ih acc, List.flatMap_cons, List.isEmpty_iff.mp h1]
      simp
    · rw [List.flatMap_cons, ← List.append_assoc]
      exact (List.take_append_of_le_length h2).symm
    · rw [ih (acc ++ m.grants_mentioned), List.flatMap_cons, List.append_assoc]

/-- Claim C7 (amended): the follow-up candidate source is the last up-to-5
grant ids gathered newest-message-first WITHOUT deduplication (repeats count
toward the cap) - `get_last_grants` equals the first `n` entries of the
reversed messages' concatenated grant mentions; and the under-3 top-up only
ever appends fresh retrieval results after the follow-up-sourced items, never
removing or replacing them. -/
theorem C7_followup_source :
    (∀ (messages : List CMsg) (n : Nat),
      get_last_grants messages n =
        (messages.reverse.flatMap (fun m => m.grants_mentioned)).take n) ∧
    (∀ (b : Bool) (fetched additional : List GItem),
      ∃ t, followupTopUp b fetched additional = fetched ++ t) ∧
    (∀ (fetched additional : List GItem), 3 ≤ fetched.length →
      followupTopUp true fetched additional = fetched) ∧
    (∀ (fetched additional : List GItem), fetched.length < 3 →
      followupTopUp true fetched additional = fetched ++ additional) := by
  refine ⟨?_, ?_, ?_, ?_⟩
  · intro messages n
    rw [get_last_grants, getLastGrantsLoop_take n messages.reverse []]
    simp
  · intro b fetched additional
    rw [followupTopUp]
    split_ifs
    · exact ⟨additional, rfl⟩
    · exact ⟨[], by simp⟩
  · intro fetched additional h
    rw [followupTopUp, if_neg (by simp; omega)]
  · intro fetched additional h
    rw [followupTopUp, if_pos (by simp [h])]

/-- Witness for C7: the top-up conjuncts applied at an empty fetched list and
the concrete `exC2` retrieval results. -/
theorem C7_witness :
    ([] : List GItem).length < 3 ∧ followupTopUp true [] exC2 = [] ++ exC2 :=
  ⟨by decide, C7_followup_source.2.2.2 [] exC2 (by decide)⟩
